import Mathlib

/-! godns, a DNS record pool (`dns.go`).

A shallow embedding of `Pool.Get` and `Pool.ResolveName`.

* Durations (`time.Duration`, an `int64` count of nanoseconds) are integers; every
  arithmetic operation of the source on them is followed by `wrap64`, Go's wrap-around.
* The network is an oracle: `Exchange name nameserver k` is what the `k`-th call of
  `dnsClient.Exchange` of one `ResolveName` invocation returns.  The query message is
  built from `name` alone, so the oracle is keyed by `name` and `nameserver`.
* `math/rand` is an oracle as well: a stream of raw draws, `rand.Intn n` being the next
  draw reduced modulo `n`.
* The two backward jumps (`goto Redo`) become a recursion on a fuel argument; running out
  of fuel (`none`) stands for "has not returned yet".
* Ghost fields count what a test double would count: exchanges, sleeps, resolver
  invocations, random draws.
* The `records` map is nil or allocated; an allocated map is an association list with at
  most the first binding of a key visible.
-/

namespace Godns

/-! ## Standard-library and dns-library values -/

/-- Go's wrap-around of a mathematical integer into the `int64` range. -/
def wrap64 (x : Int) : Int := (x + 2 ^ 63) % 2 ^ 64 - 2 ^ 63

/-- `time.Second` in nanoseconds. -/
def Second : Int := 1000000000

/-- A `net.IP`: the bytes of the address. -/
abbrev NetIP := List Nat

/-- A `net.TCPAddr` (the zone is never set by this package). -/
structure TCPAddr where
  IP : NetIP
  Port : Int
  deriving DecidableEq, Repr

/-- The reasons for which `net.SplitHostPort` rejects its argument. -/
inductive AddrWhy where
  | missingPort
  | tooManyColons
  | missingBracket
  | unexpectedOpen
  | unexpectedClose
  deriving DecidableEq, Repr

/-- The error value `dnsClient.Exchange` returns: whether it implements `net.Error`,
what its `Temporary()` answers, and its text. -/
structure NetError where
  isNetError : Bool
  temporary : Bool
  text : String
  deriving DecidableEq, Repr

/-- The error values this package returns. -/
inductive Err where
  /-- the `*net.AddrError` of `net.SplitHostPort` -/
  | addr (why : AddrWhy) (hostport : String)
  /-- the value made by `errors.New` for `ErrEmptyIPS` -/
  | emptyIPS
  /-- the error of `dnsClient.Exchange`, passed through -/
  | exchange (e : NetError)
  /-- the `fmt.Errorf` value built for a response code other than success -/
  | rcode (text : String)
  deriving DecidableEq, Repr

/-- The package variable `ErrEmptyIPS`. -/
def ErrEmptyIPS : Err := .emptyIPS

/-- Result of `net.SplitHostPort`. -/
inductive Split where
  | ok (host port : String)
  | error (why : AddrWhy)
  deriving DecidableEq, Repr

/-- Index of the last occurrence of `c` (`bytealg.LastIndexByteString`). -/
def lastIndexByte (c : Char) : List Char → Option Nat
  | [] => none
  | x :: xs =>
    match lastIndexByte c xs with
    | some i => some (i + 1)
    | none => if x = c then some 0 else none

/-- Index of the first occurrence of `c` (`bytealg.IndexByteString`). -/
def indexByte (c : Char) : List Char → Option Nat
  | [] => none
  | x :: xs => if x = c then some 0 else (indexByte c xs).map (· + 1)

/-- The common end of `net.SplitHostPort`: no `[` from position `j` on, no `]` from
position `k` on, and the port is what follows the last colon (position `i`). -/
def splitTail (s host : List Char) (i j k : Nat) : Split :=
  if (indexByte '[' (s.drop j)).isSome then .error .unexpectedOpen
  else if (indexByte ']' (s.drop k)).isSome then .error .unexpectedClose
  else .ok (String.mk host) (String.mk (s.drop (i + 1)))

/-- Go's `net.SplitHostPort` (standard library, `net/ipsock.go`), read over the
characters of the string instead of its bytes: the three separators are ASCII, so both
readings split a well-formed UTF-8 string at the same places. -/
def SplitHostPort (hostport : String) : Split :=
  let s := hostport.toList
  match lastIndexByte ':' s with
  | none => .error .missingPort
  | some i =>
    if s.head? = some '[' then
      match indexByte ']' s with
      | none => .error .missingBracket
      | some e =>
        if e + 1 = s.length then .error .missingPort
        else if e + 1 = i then splitTail s ((s.take e).drop 1) i 1 (e + 1)
        else if s.get? (e + 1) = some ':' then .error .tooManyColons
        else .error .missingPort
    else
      let host := s.take i
      if (indexByte ':' host).isSome then .error .tooManyColons
      else splitTail s host i 0 0

/-- The loop of Go's `strconv.ParseUint` for base 10 and 64 bits, `n` being the value
read so far; `none` is its syntax error, and its range error yields `2 ^ 64 - 1`.  The
range is checked at each digit, before the following characters are looked at. -/
def parseUintLoop : List Char → Nat → Option Nat
  | [], n => some n
  | c :: cs, n =>
    if '0' ≤ c ∧ c ≤ '9' then
      if n ≥ (2 ^ 64 - 1) / 10 + 1 then some (2 ^ 64 - 1)
      else
        let n1 := n * 10 + (c.toNat - 48)
        if n1 > 2 ^ 64 - 1 then some (2 ^ 64 - 1) else parseUintLoop cs n1
    else none

/-- The value of Go's `strconv.ParseUint(s, 10, 64)`; `none` is its syntax error (value
0), and on its range error the value is `2 ^ 64 - 1`. -/
def ParseUint : List Char → Option Nat
  | [] => none
  | cs => parseUintLoop cs 0

/-- The value returned by Go's `strconv.Atoi` on a 64-bit platform, its error dropped
(as in `po, _ := strconv.Atoi(port)`); it is the value of `strconv.ParseInt(s, 10, 0)`:
`0` on a syntax error, the nearest bound of `int64` on a range error. -/
def Atoi (s : String) : Int :=
  match s.toList with
  | [] => 0
  | c :: cs =>
    let neg := decide (c = '-')
    let ds := if c = '+' ∨ c = '-' then cs else c :: cs
    match ParseUint ds with
    | none => 0
    | some un =>
      if neg then (if un > 2 ^ 63 then -(2 ^ 63 : Int) else -(un : Int))
      else (if un ≥ 2 ^ 63 then (2 ^ 63 - 1 : Int) else (un : Int))

/-- The number a decimal numeral denotes, read digit by digit after `n`; `none` when a
character is not a decimal digit. -/
def decimalFrom : List Char → Nat → Option Nat
  | [], n => some n
  | c :: cs, n =>
    if '0' ≤ c ∧ c ≤ '9' then decimalFrom cs (n * 10 + (c.toNat - 48)) else none

/-- The number denoted by a port written as a non-empty run of decimal digits; `none` for
any other text. -/
def decimalValue (port : String) : Option Nat :=
  match port.toList with
  | [] => none
  | cs => decimalFrom cs 0

/-- A resource record of the answer section, as far as the type switch of `ResolveName`
tells them apart. -/
inductive RR where
  | A (a : NetIP)
  | AAAA (a : NetIP)
  | other (rrtype : Nat)
  deriving DecidableEq, Repr

/-- The fields of a `dns.Msg` that `ResolveName` reads. -/
structure Msg where
  Rcode : Int
  Truncated : Bool
  Answer : List RR
  deriving DecidableEq, Repr

/-- The constant `dns.RcodeSuccess`. -/
def RcodeSuccess : Int := 0

/-- What one call of `dnsClient.Exchange` returns: an error with the round-trip time, or
a reply with the round-trip time. -/
inductive Exchanged where
  | failed (rtt : Int) (err : NetError)
  | replied (rtt : Int) (reply : Msg)
  deriving DecidableEq, Repr

/-- The answers of the network to one `ResolveName` invocation: query name, nameserver,
number of the attempt (from 0). -/
abbrev Network := String → String → Nat → Exchanged

/-! ## The pool -/

/-- The bindings of an allocated map, as an association list. -/
abbrev Bindings := List (String × List TCPAddr)

/-- The value bound to `k`, if any. -/
def bindGet : Bindings → String → Option (List TCPAddr)
  | [], _ => none
  | (k1, v) :: rest, k => if k1 = k then some v else bindGet rest k

/-- The bindings with `k` bound to `v`. -/
def bindSet : Bindings → String → List TCPAddr → Bindings
  | [], k, v => [(k, v)]
  | (k1, v1) :: rest, k, v => if k1 = k then (k, v) :: rest else (k1, v1) :: bindSet rest k v

/-- The `records` map, of type `map[string][]*net.TCPAddr`: nil (as in a `Pool` made by a
struct literal without `records`) or allocated (as `New` makes it). -/
inductive Records where
  | nil
  | alloc (bindings : Bindings)
  deriving DecidableEq, Repr

/-- A map read `m[k]` with its `ok` flag; a nil map reads as empty. -/
def mapGet : Records → String → Option (List TCPAddr)
  | .nil, _ => none
  | .alloc b, k => bindGet b k

/-- A map write `m[k] = v`; `none` is the run-time panic of a write to a nil map. -/
def mapSet : Records → String → List TCPAddr → Option Records
  | .nil, _, _ => none
  | .alloc b, k, v => some (.alloc (bindSet b k v))

/-- The struct `Pool`. -/
structure Pool where
  NameServer : String
  Randomize : Bool
  records : Records
  Timeout : Int
  StepTimeout : Int
  RetryWait : Int
  deriving DecidableEq, Repr

/-- The constant `DefaultNameServer`. -/
def DefaultNameServer : String := "8.8.8.8:53"

/-- The constructor `New`. -/
def New : Pool :=
  { NameServer := DefaultNameServer
    Randomize := true
    Timeout := 5 * Second
    StepTimeout := 2 * Second
    RetryWait := 2 * Second
    records := .alloc [] }

/-! ## ResolveName -/

/-- What `ResolveName` returns (`addrs`, `dur`, `err`; a nil slice is `[]`), with two
ghost fields: the number of exchanges made and the arguments of `time.Sleep`, oldest
first. -/
structure Resolved where
  addrs : List NetIP
  dur : Int
  err : Option Err
  exchanges : Nat
  sleeps : List Int
  deriving DecidableEq, Repr

/-- The variables live at the label `Redo`, with the two ghost fields. -/
structure RedoState where
  addrs : List NetIP
  dur : Int
  retryWait : Int
  exchanges : Nat
  sleeps : List Int
  deriving DecidableEq, Repr

/-- The loop `for _, a := range reply.Answer` with its two type assertions. -/
def collect (addrs : List NetIP) : List RR → List NetIP
  | [] => addrs
  | a :: rest =>
    let addrs1 := match a with
      | .A ip => addrs ++ [ip]
      | _ => addrs
    let addrs2 := match a with
      | .AAAA ip => addrs1 ++ [ip]
      | _ => addrs1
    collect addrs2 rest

/-- The text built by the call of `fmt.Errorf` in `ResolveName`. -/
def rcodeErrorText (name nameserver rcodeText : String) : String :=
  "ResolveName(" ++ name ++ ", " ++ nameserver ++ "): " ++ rcodeText

/-- The body of `ResolveName` from the label `Redo` on.  `RcodeToString` is the table of
the dns library. -/
def Redo (p : Pool) (net : Network) (RcodeToString : Int → String)
    (name nameserver : String) : Nat → RedoState → Option Resolved
  | 0, _ => none
  | fuel + 1, s =>
    match net name nameserver s.exchanges with
    | .failed rtt err =>
      let dur := wrap64 (s.dur + rtt)
      if err.isNetError && err.temporary && decide (wrap64 (dur + s.retryWait) < p.Timeout) then
        Redo p net RcodeToString name nameserver fuel
          { addrs := s.addrs
            dur := dur
            retryWait := wrap64 (s.retryWait * 2)
            exchanges := s.exchanges + 1
            sleeps := s.sleeps ++ [s.retryWait] }
      else
        some { addrs := [], dur := dur, err := some (.exchange err),
               exchanges := s.exchanges + 1, sleeps := s.sleeps }
    | .replied rtt reply =>
      let dur := wrap64 (s.dur + rtt)
      if reply.Rcode ≠ RcodeSuccess then
        some { addrs := [], dur := dur,
               err := some (.rcode (rcodeErrorText name nameserver (RcodeToString reply.Rcode))),
               exchanges := s.exchanges + 1, sleeps := s.sleeps }
      else
        let addrs := collect s.addrs reply.Answer
        if reply.Truncated then
          Redo p net RcodeToString name nameserver fuel
            { addrs := addrs
              dur := dur
              retryWait := s.retryWait
              exchanges := s.exchanges + 1
              sleeps := s.sleeps }
        else
          some { addrs := addrs, dur := dur, err := none,
                 exchanges := s.exchanges + 1, sleeps := s.sleeps }

/-- The state in which `ResolveName` reaches `Redo` for the first time. -/
def redoInit (p : Pool) : RedoState :=
  { addrs := [], dur := 0, retryWait := p.RetryWait, exchanges := 0, sleeps := [] }

/-- The method `Pool.ResolveName`; `none` when it has not returned within `fuel`
exchanges. -/
def ResolveName (p : Pool) (net : Network) (RcodeToString : Int → String)
    (name nameserver : String) (fuel : Nat) : Option Resolved :=
  Redo p net RcodeToString name nameserver fuel (redoInit p)

/-! ## Get -/

/-- Everything outside the pool that one call of `Get` depends on: the network (per
`ResolveName` invocation of the call), the rcode table of the dns library, and the raw
draws of `math/rand`. -/
structure World where
  Exchange : Nat → Network
  RcodeToString : Int → String
  Rand : Nat → Nat

/-- The call `rand.Intn(n)` on the raw draw `draw`; `none` is its panic for `n ≤ 0`. -/
def Intn (draw n : Nat) : Option Nat :=
  if n = 0 then none else some (draw % n)

/-- What a returning `Get` leaves behind: its two results, the pool, and two ghost
counters (invocations of `ResolveName`, calls of `rand.Intn`). -/
structure Got where
  addr : Option TCPAddr
  err : Option Err
  pool : Pool
  resolves : Nat
  draws : Nat
  deriving DecidableEq, Repr

/-- How a call of `Get` ends: it returns, it dies of a run-time panic, or it has not
returned (the resolver is still looping, or the recursion budget is used up). -/
inductive Outcome where
  | returned (g : Got)
  | crashed
  | pending
  deriving DecidableEq, Repr

/-- The statement `p.records[hostport] = append(p.records[hostport], a)`; the entry of
an absent key reads as the nil slice, and `none` is the panic of the write to a nil
map. -/
def store (p : Pool) (hostport : String) (a : TCPAddr) : Option Pool :=
  match mapSet p.records hostport ((mapGet p.records hostport).getD [] ++ [a]) with
  | none => none
  | some m => some { p with records := m }

/-- The method `Pool.Get`, with the ghost counters threaded through; `depth` bounds the
recursion `return p.Get(hostport)`, `fuel` each `ResolveName`. -/
def GetAux (w : World) (fuel : Nat) : Nat → Pool → Nat → Nat → String → Outcome
  | 0, _, _, _, _ => .pending
  | depth + 1, p, resolves, draws, hostport =>
    match SplitHostPort hostport with
    | .error why =>
      .returned { addr := none, err := some (.addr why hostport), pool := p,
                  resolves := resolves, draws := draws }
    | .ok host port =>
      match mapGet p.records hostport with
      | some value =>
        let addrLen := value.length
        if addrLen = 1 then
          match value[0]? with
          | none => .crashed
          | some a => .returned { addr := some a, err := none, pool := p,
                                  resolves := resolves, draws := draws }
        else if p.Randomize then
          match Intn (w.Rand draws) addrLen with
          | none => .crashed
          | some i =>
            match value[i]? with
            | none => .crashed
            | some a => .returned { addr := some a, err := none, pool := p,
                                    resolves := resolves, draws := draws + 1 }
        else
          match value[0]? with
          | none => .crashed
          | some a => .returned { addr := some a, err := none, pool := p,
                                  resolves := resolves, draws := draws }
      | none =>
        match ResolveName p (w.Exchange resolves) w.RcodeToString host p.NameServer fuel with
        | none => .pending
        | some r =>
          match r.err with
          | some e =>
            .returned { addr := none, err := some e, pool := p,
                        resolves := resolves + 1, draws := draws }
          | none =>
            if r.addrs.length = 0 then
              .returned { addr := none, err := some ErrEmptyIPS, pool := p,
                          resolves := resolves + 1, draws := draws }
            else
              let po := Atoi port
              match Intn (w.Rand draws) r.addrs.length with
              | none => .crashed
              | some i =>
                match r.addrs[i]? with
                | none => .crashed
                | some ip =>
                  match store p hostport { IP := ip, Port := po } with
                  | none => .crashed
                  | some p1 => GetAux w fuel depth p1 (resolves + 1) (draws + 1) hostport

/-- The method `Pool.Get`.  Two levels of the recursion are always enough
(`GetAux_depth`). -/
def Get (w : World) (fuel : Nat) (p : Pool) (hostport : String) : Outcome :=
  GetAux w fuel 2 p 0 0 hostport


/-! ## Concrete worlds and pools used to exercise the definitions -/

/-- A nameserver that answers the first exchange with a truncated reply holding one A
record, and every later one with a complete reply holding an AAAA and an A record. -/
def twoStepNet : Network := fun _ _ k =>
  if k = 0 then .replied 5 { Rcode := 0, Truncated := true, Answer := [.A [1, 2, 3, 4], .other 5] }
  else .replied 7 { Rcode := 0, Truncated := false, Answer := [.AAAA [9], .A [4, 4, 4, 4]] }

/-- A nameserver that answers at once, successfully, with no address record. -/
def emptyNet : Network := fun _ _ _ =>
  .replied 3 { Rcode := 0, Truncated := false, Answer := [.other 5] }

/-- No rcode has a text. -/
def noText : Int → String := fun _ => ""

/-- The world of `twoStepNet`; every raw random draw is 7. -/
def twoStepWorld : World :=
  { Exchange := fun _ => twoStepNet, RcodeToString := noText, Rand := fun _ => 7 }

/-- The world of `emptyNet`. -/
def emptyWorld : World :=
  { Exchange := fun _ => emptyNet, RcodeToString := noText, Rand := fun _ => 7 }

/-- The zero value of `Pool` with the defaults of `New` for the exported fields: its map
is nil. -/
def literalPool : Pool := { New with records := .nil }

/-- The table `dns.RcodeToString` as far as response code 3 goes. -/
def nameErrorText : Int → String := fun rcode => if rcode = 3 then "NXDOMAIN" else ""

/-- A nameserver that answers with response code 3 (name error). -/
def nameErrorNet : Network := fun _ _ _ =>
  .replied 2 { Rcode := 3, Truncated := false, Answer := [] }

/-! ## Reading `ResolveName`: address records, fatal outcomes, runs of transient errors -/

/-- The address records of an answer section, A and AAAA alike, in the order of the
section. -/
def addressRecords (answer : List RR) : List NetIP :=
  answer.filterMap (fun a =>
    match a with
    | .A ip => some ip
    | .AAAA ip => some ip
    | .other _ => none)

/-- A transport error is transient when it is a `net.Error` whose `Temporary()` holds. -/
def NetError.transient (e : NetError) : Bool := e.isNetError && e.temporary

/-- The outcomes of an exchange after which the specification allows no retry, with the
round-trip time and the error to surface: a transport error that is not transient, and a
reply whose response code is not success. -/
def fatalOutcome (RcodeToString : Int → String) (name nameserver : String) :
    Exchanged → Option (Int × Err)
  | .failed rtt e => if e.transient then none else some (rtt, .exchange e)
  | .replied rtt reply =>
    if reply.Rcode = RcodeSuccess then none
    else some (rtt, .rcode (rcodeErrorText name nameserver (RcodeToString reply.Rcode)))

/-- The round-trip time of an exchange. -/
def rttOf : Exchanged → Int
  | .failed rtt _ => rtt
  | .replied rtt _ => rtt

/-- The sum of the round-trip times of the first `k` exchanges, as a mathematical
integer. -/
def totalRtt (net : Network) (name nameserver : String) : Nat → Int
  | 0 => 0
  | k + 1 => totalRtt net name nameserver k + rttOf (net name nameserver k)

/-- The same sum in `int64` arithmetic: the value of `dur` after `k` exchanges. -/
def elapsed (net : Network) (name nameserver : String) : Nat → Int
  | 0 => 0
  | k + 1 => wrap64 (elapsed net name nameserver k + rttOf (net name nameserver k))

/-- The value of `retryWait` after `n` doublings in `int64` arithmetic. -/
def backoff (retryWait : Int) : Nat → Int
  | 0 => retryWait
  | n + 1 => wrap64 (backoff retryWait n * 2)

/-- The test `dur+retryWait < p.Timeout` as attempt `k` evaluates it when all attempts so
far met a transient error. -/
def retries (p : Pool) (net : Network) (name nameserver : String) (k : Nat) : Prop :=
  wrap64 (elapsed net name nameserver (k + 1) + backoff p.RetryWait k) < p.Timeout

instance retriesDecidable (p : Pool) (net : Network) (name nameserver : String) (k : Nat) :
    Decidable (retries p net name nameserver k) :=
  inferInstanceAs
    (Decidable (wrap64 (elapsed net name nameserver (k + 1) + backoff p.RetryWait k) < p.Timeout))

/-- The state at `Redo` before attempt `k` when all attempts so far met a transient error
and were retried. -/
def transientState (p : Pool) (net : Network) (name nameserver : String) (k : Nat) :
    RedoState :=
  { addrs := []
    dur := elapsed net name nameserver k
    retryWait := backoff p.RetryWait k
    exchanges := k
    sleeps := (List.range k).map (backoff p.RetryWait) }

/-- What `ResolveName` returns when it gives up at attempt `n` on the error `e`, all
attempts having met a transient error. -/
def gaveUp (p : Pool) (net : Network) (name nameserver : String) (n : Nat) (e : NetError) :
    Resolved :=
  { addrs := []
    dur := elapsed net name nameserver (n + 1)
    err := some (.exchange e)
    exchanges := n + 1
    sleeps := (List.range n).map (backoff p.RetryWait) }

/-- The network always reports a transient transport error. -/
def AlwaysTransient (net : Network) (name nameserver : String) : Prop :=
  ∀ k, ∃ rtt e, net name nameserver k = .failed rtt e ∧ e.transient = true

/-- A connection that times out. -/
def timeoutError : NetError := { isNetError := true, temporary := true, text := "i/o timeout" }

/-- A connection that is refused for good. -/
def refusedError : NetError :=
  { isNetError := true, temporary := false, text := "connection refused" }

/-- A network on which every exchange fails with a transient error and a round-trip time
of 0. -/
def timeoutNet : Network := fun _ _ _ => .failed 0 timeoutError

/-- A network on which every exchange fails with a transient error after one second. -/
def slowTimeoutNet : Network := fun _ _ _ => .failed Second timeoutError

/-- A network on which every exchange fails with a transient error after two seconds, the
default `StepTimeout`. -/
def stepTimeoutNet : Network := fun _ _ _ => .failed (2 * Second) timeoutError

/-- A network on which the connection is refused for good. -/
def refusedNet : Network := fun _ _ _ => .failed 1 refusedError

/-- A pool with a time budget and a first wait beyond `2 ^ 62` nanoseconds. -/
def hugePool : Pool := { New with Timeout := 2 ^ 62 + 1, RetryWait := 2 ^ 62 }

/-- The default pool with a budget of exactly twice the first wait. -/
def boundaryPool : Pool := { New with Timeout := 4 * Second }

/-! ## Sequential use of a pool -/

/-- The pool states reachable from `New()` by sequential calls of `Get` that return,
whatever the world of each call; between calls the owner may set the exported fields,
which leaves `records` alone. -/
inductive Reachable : Pool → Prop where
  | new : Reachable New
  | configure (p q : Pool) : Reachable p → q.records = p.records → Reachable q
  | get (w : World) (fuel : Nat) (p : Pool) (hostport : String) (g : Got) :
      Reachable p → Get w fuel p hostport = .returned g → Reachable g.pool

/-- Every visible entry of the map holds exactly one address under a key that splits. -/
def SingleAddress (m : Records) : Prop :=
  ∀ k v, mapGet m k = some v →
    (∃ a, v = [a]) ∧ ∃ host port, SplitHostPort k = .ok host port

/-- The pool after one successful `Get` of `example.com:80` from `New()`. -/
def onePool : Pool :=
  { New with records := .alloc [("example.com:80", [{ IP := [9], Port := 80 }])] }

/-! ## Facts about the map and the recursion of `Get` -/

theorem bindGet_bindSet_same (m : Bindings) (k : String) (v : List TCPAddr) :
    bindGet (bindSet m k v) k = some v := by
  induction m with
  | nil => simp [bindSet, bindGet]
  | cons kv rest ih =>
    obtain ⟨k1, v1⟩ := kv
    by_cases h : k1 = k
    · simp [bindSet, bindGet, h]
    · simp [bindSet, bindGet, h, ih]

theorem bindGet_bindSet_other (m : Bindings) (k k2 : String) (v : List TCPAddr) (h : k2 ≠ k) :
    bindGet (bindSet m k v) k2 = bindGet m k2 := by
  induction m with
  | nil => simp [bindSet, bindGet, Ne.symm h]
  | cons kv rest ih =>
    obtain ⟨k1, v1⟩ := kv
    by_cases h1 : k1 = k
    · subst h1
      simp [bindSet, bindGet, Ne.symm h]
    · by_cases h2 : k1 = k2
      · subst h2
        simp [bindSet, bindGet, h]
      · simp [bindSet, bindGet, h1, h2, ih]

/-- A write to an allocated map succeeds; what it returns is allocated. -/
theorem store_alloc (p : Pool) (b : Bindings) (hostport : String) (a : TCPAddr)
    (hb : p.records = .alloc b) :
    store p hostport a =
      some { p with records := .alloc (bindSet b hostport ((bindGet b hostport).getD [] ++ [a])) } := by
  simp [store, hb, mapSet, mapGet]

/-- A write to a nil map panics. -/
theorem store_nil (p : Pool) (hostport : String) (a : TCPAddr) (hb : p.records = .nil) :
    store p hostport a = none := by
  simp [store, hb, mapSet]

/-- A successful write was made to an allocated map and binds the key to the old entry
followed by the new address, every other key as before. -/
theorem store_some (p p1 : Pool) (hostport : String) (a : TCPAddr)
    (h : store p hostport a = some p1) :
    (∃ b, p.records = .alloc b) ∧ (∃ b1, p1.records = .alloc b1) ∧
    mapGet p1.records hostport = some ((mapGet p.records hostport).getD [] ++ [a]) ∧
    (∀ k, k ≠ hostport → mapGet p1.records k = mapGet p.records k) := by
  cases hb : p.records with
  | nil => rw [store_nil p hostport a hb] at h; simp at h
  | alloc b =>
    rw [store_alloc p b hostport a hb, Option.some.injEq] at h
    subst h
    refine ⟨⟨b, rfl⟩, ⟨_, rfl⟩, ?_, ?_⟩
    · simp [mapGet, bindGet_bindSet_same]
    · intro k hk
      simp [mapGet, bindGet_bindSet_other _ _ _ _ hk]

/-- A lookup of a key that is present, with a non-empty entry, at any positive depth. -/
theorem GetAux_hit (w : World) (fuel depth : Nat) (p : Pool) (rs ds : Nat)
    (hostport host port : String) (value : List TCPAddr)
    (hs : SplitHostPort hostport = .ok host port)
    (hk : mapGet p.records hostport = some value) (hne : value ≠ []) :
    ∃ a d, a ∈ value ∧ GetAux w fuel (depth + 1) p rs ds hostport =
      .returned { addr := some a, err := none, pool := p, resolves := rs, draws := d } := by
  cases value with
  | nil => exact absurd rfl hne
  | cons a rest =>
    by_cases h1 : rest.length + 1 = 1
    · exact ⟨a, ds, by simp, by simp [GetAux, hs, hk, h1]⟩
    · by_cases hr : p.Randomize = true
      · have hlt : w.Rand ds % (rest.length + 1) < (a :: rest).length := by
          simpa using Nat.mod_lt _ (Nat.succ_pos _)
        refine ⟨(a :: rest).get ⟨_, hlt⟩, ds + 1, List.get_mem _ _ _, ?_⟩
        have hg : (a :: rest)[w.Rand ds % (rest.length + 1)]? =
            some ((a :: rest).get ⟨_, hlt⟩) := List.getElem?_eq_getElem hlt
        simp only [GetAux, hs, hk, List.length_cons, h1, if_false, hr, if_true, Intn,
          Nat.succ_ne_zero, hg]
      · exact ⟨a, ds, by simp, by simp [GetAux, hs, hk, h1, hr]⟩

/-- A lookup of a key cached with exactly one address returns it and draws nothing. -/
theorem GetAux_hit_one (w : World) (fuel depth : Nat) (p : Pool) (rs ds : Nat)
    (hostport host port : String) (a : TCPAddr)
    (hs : SplitHostPort hostport = .ok host port)
    (hk : mapGet p.records hostport = some [a]) :
    GetAux w fuel (depth + 1) p rs ds hostport =
      .returned { addr := some a, err := none, pool := p, resolves := rs, draws := ds } := by
  simp [GetAux, hs, hk]

/-- One unfolding of `GetAux`. -/
theorem GetAux_succ (w : World) (fuel depth : Nat) (p : Pool) (rs ds : Nat) (hostport : String) :
    GetAux w fuel (depth + 1) p rs ds hostport =
    match SplitHostPort hostport with
    | .error why =>
      .returned { addr := none, err := some (.addr why hostport), pool := p,
                  resolves := rs, draws := ds }
    | .ok host port =>
      match mapGet p.records hostport with
      | some value =>
        if value.length = 1 then
          match value[0]? with
          | none => .crashed
          | some a => .returned { addr := some a, err := none, pool := p,
                                  resolves := rs, draws := ds }
        else if p.Randomize then
          match Intn (w.Rand ds) value.length with
          | none => .crashed
          | some i =>
            match value[i]? with
            | none => .crashed
            | some a => .returned { addr := some a, err := none, pool := p,
                                    resolves := rs, draws := ds + 1 }
        else
          match value[0]? with
          | none => .crashed
          | some a => .returned { addr := some a, err := none, pool := p,
                                  resolves := rs, draws := ds }
      | none =>
        match ResolveName p (w.Exchange rs) w.RcodeToString host p.NameServer fuel with
        | none => .pending
        | some r =>
          match r.err with
          | some e =>
            .returned { addr := none, err := some e, pool := p,
                        resolves := rs + 1, draws := ds }
          | none =>
            if r.addrs.length = 0 then
              .returned { addr := none, err := some ErrEmptyIPS, pool := p,
                          resolves := rs + 1, draws := ds }
            else
              match Intn (w.Rand ds) r.addrs.length with
              | none => .crashed
              | some i =>
                match r.addrs[i]? with
                | none => .crashed
                | some ip =>
                  match store p hostport { IP := ip, Port := Atoi port } with
                  | none => .crashed
                  | some p1 => GetAux w fuel depth p1 (rs + 1) (ds + 1) hostport := by
  rfl

/-- A lookup of a key that is present never recurses: one level is as good as any. -/
theorem GetAux_cached_depth (w : World) (fuel depth : Nat) (p : Pool) (rs ds : Nat)
    (hostport : String) (h : mapGet p.records hostport ≠ none) :
    GetAux w fuel (depth + 1) p rs ds hostport = GetAux w fuel 1 p rs ds hostport := by
  obtain ⟨value, hv⟩ := Option.ne_none_iff_exists'.mp h
  rw [GetAux_succ, GetAux_succ]
  cases hs : SplitHostPort hostport <;> simp only [hv]

/-- The miss path of `Get` up to the map write, when the resolver returns a non-empty list
without error: the address is made of a resolved IP and of `Atoi port`, and `Get` goes on
as the write and the second lookup do. -/
theorem GetAux_miss_step (w : World) (fuel : Nat) (p : Pool) (rs ds : Nat)
    (hostport host port : String) (r : Resolved)
    (hs : SplitHostPort hostport = .ok host port)
    (hk : mapGet p.records hostport = none)
    (hr : ResolveName p (w.Exchange rs) w.RcodeToString host p.NameServer fuel = some r)
    (he : r.err = none) (hne : r.addrs ≠ []) :
    ∃ ip, ip ∈ r.addrs ∧ ∀ depth, GetAux w fuel (depth + 1) p rs ds hostport =
      match store p hostport { IP := ip, Port := Atoi port } with
      | none => .crashed
      | some p1 => GetAux w fuel depth p1 (rs + 1) (ds + 1) hostport := by
  have hlen : r.addrs.length ≠ 0 := by
    intro h
    exact hne (List.length_eq_zero.mp h)
  have hlt : w.Rand ds % r.addrs.length < r.addrs.length :=
    Nat.mod_lt _ (Nat.pos_of_ne_zero hlen)
  have hg : r.addrs[w.Rand ds % r.addrs.length]? = some r.addrs[w.Rand ds % r.addrs.length] :=
    List.getElem?_eq_getElem hlt
  refine ⟨r.addrs[w.Rand ds % r.addrs.length], List.getElem_mem _, ?_⟩
  intro depth
  rw [GetAux_succ]
  simp only [hs, hk, hr, he, hlen, if_false, Intn, hg]

/-- The miss path of `Get` on an allocated map, when the resolver returns a non-empty list
without error. -/
theorem GetAux_miss (w : World) (fuel : Nat) (p : Pool) (rs ds : Nat)
    (hostport host port : String) (r : Resolved) (b : Bindings)
    (hb : p.records = .alloc b)
    (hs : SplitHostPort hostport = .ok host port)
    (hk : mapGet p.records hostport = none)
    (hr : ResolveName p (w.Exchange rs) w.RcodeToString host p.NameServer fuel = some r)
    (he : r.err = none) (hne : r.addrs ≠ []) :
    ∃ ip p1, ip ∈ r.addrs ∧ store p hostport { IP := ip, Port := Atoi port } = some p1 ∧
      mapGet p1.records hostport = some [{ IP := ip, Port := Atoi port }] ∧
      ∀ depth, GetAux w fuel (depth + 2) p rs ds hostport =
        .returned { addr := some { IP := ip, Port := Atoi port }, err := none,
                    pool := p1, resolves := rs + 1, draws := ds + 1 } := by
  obtain ⟨ip, hip, hstep⟩ :=
    GetAux_miss_step w fuel p rs ds hostport host port r hs hk hr he hne
  have hst := store_alloc p b hostport { IP := ip, Port := Atoi port } hb
  obtain ⟨_, _, hget, _⟩ := store_some p _ hostport _ hst
  rw [hk] at hget
  simp only [Option.getD_none, List.nil_append] at hget
  refine ⟨ip, _, hip, hst, hget, ?_⟩
  intro depth
  rw [hstep (depth + 1), hst]
  exact GetAux_hit_one w fuel depth _ (rs + 1) (ds + 1) hostport host port _ hs hget

/-- The miss path of `Get` on a nil map, when the resolver returns a non-empty list
without error: the write panics. -/
theorem GetAux_miss_nil (w : World) (fuel depth : Nat) (p : Pool) (rs ds : Nat)
    (hostport host port : String) (r : Resolved)
    (hb : p.records = .nil)
    (hs : SplitHostPort hostport = .ok host port)
    (hr : ResolveName p (w.Exchange rs) w.RcodeToString host p.NameServer fuel = some r)
    (he : r.err = none) (hne : r.addrs ≠ []) :
    GetAux w fuel (depth + 1) p rs ds hostport = .crashed := by
  have hk : mapGet p.records hostport = none := by simp [hb, mapGet]
  obtain ⟨ip, _, hstep⟩ :=
    GetAux_miss_step w fuel p rs ds hostport host port r hs hk hr he hne
  rw [hstep depth, store_nil p hostport _ hb]

/-- Two levels of the recursion of `Get` are always enough. -/
theorem GetAux_depth (w : World) (fuel depth : Nat) (p : Pool) (rs ds : Nat)
    (hostport : String) :
    GetAux w fuel (depth + 2) p rs ds hostport = GetAux w fuel 2 p rs ds hostport := by
  cases hs : SplitHostPort hostport with
  | error why => simp only [GetAux_succ, hs]
  | ok host port =>
    cases hk : mapGet p.records hostport with
    | some value => simp only [GetAux_succ, hs, hk]
    | none =>
      cases hr : ResolveName p (w.Exchange rs) w.RcodeToString host p.NameServer fuel with
      | none => simp only [GetAux_succ, hs, hk, hr]
      | some r =>
        cases he : r.err with
        | some e => simp only [GetAux_succ, hs, hk, hr, he]
        | none =>
          by_cases hne : r.addrs = []
          · simp [GetAux_succ, hs, hk, hr, he, hne]
          · cases hb : p.records with
            | nil =>
              rw [GetAux_miss_nil w fuel (depth + 1) p rs ds hostport host port r hb hs hr he hne,
                GetAux_miss_nil w fuel 1 p rs ds hostport host port r hb hs hr he hne]
            | alloc b =>
              obtain ⟨ip, p1, _, _, _, hres⟩ :=
                GetAux_miss w fuel p rs ds hostport host port r b hb hs hk hr he hne
              rw [hres depth, hres 0]

/-! ## `Atoi` on decimal numerals -/

theorem decimalFrom_ge (cs : List Char) (acc n : Nat) (h : decimalFrom cs acc = some n) :
    acc ≤ n := by
  induction cs generalizing acc with
  | nil =>
    simp only [decimalFrom, Option.some.injEq] at h
    omega
  | cons c cs ih =>
    by_cases hd : '0' ≤ c ∧ c ≤ '9'
    · simp only [decimalFrom, hd, and_self, if_true] at h
      have := ih _ h
      omega
    · simp [decimalFrom, hd] at h

/-- On a run of decimal digits whose value fits 64 bits the loop of `ParseUint` returns
that value. -/
theorem parseUintLoop_decimal (cs : List Char) (acc n : Nat)
    (h : decimalFrom cs acc = some n) (hn : n ≤ 2 ^ 64 - 1) :
    parseUintLoop cs acc = some n := by
  induction cs generalizing acc with
  | nil => simpa [decimalFrom, parseUintLoop] using h
  | cons c cs ih =>
    by_cases hd : '0' ≤ c ∧ c ≤ '9'
    · simp only [decimalFrom, hd, and_self, if_true] at h
      have hge := decimalFrom_ge cs _ n h
      have h1 : ¬ (acc ≥ (2 ^ 64 - 1) / 10 + 1) := by
        norm_num at hn ⊢
        omega
      have h2 : ¬ (acc * 10 + (c.toNat - 48) > 2 ^ 64 - 1) := by
        norm_num at hn ⊢
        omega
      simp only [parseUintLoop, hd, and_self, if_true, h1, if_false, h2]
      exact ih _ h
    · simp [decimalFrom, hd] at h

/-- On a port written as a non-empty run of decimal digits whose value fits `int64`,
`Atoi` returns that value. -/
theorem Atoi_decimal (port : String) (n : Nat) (h : decimalValue port = some n)
    (hn : n < 2 ^ 63) : Atoi port = (n : Int) := by
  unfold decimalValue at h
  unfold Atoi
  cases hl : port.toList with
  | nil =>
    rw [hl] at h
    simp at h
  | cons c cs =>
    rw [hl] at h
    change decimalFrom (c :: cs) 0 = some n at h
    have hd : '0' ≤ c ∧ c ≤ '9' := by
      by_contra hd
      simp [decimalFrom, hd] at h
    have hplus : c ≠ '+' := by
      rintro rfl
      exact absurd hd (by decide)
    have hminus : c ≠ '-' := by
      rintro rfl
      exact absurd hd (by decide)
    have hp : ParseUint (c :: cs) = some n :=
      parseUintLoop_decimal (c :: cs) 0 n h (by norm_num at hn ⊢; omega)
    simp only [hplus, hminus, or_self, if_false, hp, decide_False, Bool.false_eq_true]
    norm_num at hn ⊢
    omega

/-! ## Get: every way of returning -/

/-- The three ways in which `Get` returns: with an error and the pool untouched; with an
address of the entry cached under the key, the pool untouched and no resolution; or with a
freshly resolved address stored under the key, which was absent, after one resolution. -/
theorem Get_cases (w : World) (fuel : Nat) (p : Pool) (hostport : String) (g : Got)
    (h : Get w fuel p hostport = .returned g) :
    (∃ e, g.err = some e ∧ g.addr = none ∧ g.pool = p ∧ g.resolves ≤ 1) ∨
    (∃ host port value a, SplitHostPort hostport = .ok host port ∧
      mapGet p.records hostport = some value ∧ a ∈ value ∧
      g.addr = some a ∧ g.err = none ∧ g.pool = p ∧ g.resolves = 0) ∨
    (∃ host port a, SplitHostPort hostport = .ok host port ∧
      mapGet p.records hostport = none ∧
      g.addr = some a ∧ g.err = none ∧ store p hostport a = some g.pool ∧
      g.resolves = 1) := by
  cases hs : SplitHostPort hostport with
  | error why =>
    rw [Get, GetAux_succ] at h
    simp only [hs, Outcome.returned.injEq] at h
    subst h
    exact Or.inl ⟨_, rfl, rfl, rfl, by simp⟩
  | ok host port =>
    cases hk : mapGet p.records hostport with
    | some value =>
      right; left
      rw [Get, GetAux_succ] at h
      simp only [hs, hk] at h
      split at h
      · split at h
        · simp at h
        · rename_i a ha
          simp only [Outcome.returned.injEq] at h
          subst h
          exact ⟨host, port, value, a, rfl, rfl, List.getElem?_mem ha, rfl, rfl, rfl, rfl⟩
      · split at h
        · split at h
          · simp at h
          · split at h
            · simp at h
            · rename_i a ha
              simp only [Outcome.returned.injEq] at h
              subst h
              exact ⟨host, port, value, a, rfl, rfl, List.getElem?_mem ha, rfl, rfl, rfl, rfl⟩
        · split at h
          · simp at h
          · rename_i a ha
            simp only [Outcome.returned.injEq] at h
            subst h
            exact ⟨host, port, value, a, rfl, rfl, List.getElem?_mem ha, rfl, rfl, rfl, rfl⟩
    | none =>
      cases hr : ResolveName p (w.Exchange 0) w.RcodeToString host p.NameServer fuel with
      | none =>
        rw [Get, GetAux_succ] at h
        simp [hs, hk, hr] at h
      | some r =>
        cases he : r.err with
        | some e =>
          rw [Get, GetAux_succ] at h
          simp only [hs, hk, hr, he, Outcome.returned.injEq] at h
          subst h
          exact Or.inl ⟨_, rfl, rfl, rfl, by simp⟩
        | none =>
          by_cases hne : r.addrs = []
          · rw [Get, GetAux_succ] at h
            simp only [hs, hk, hr, he, hne, List.length_nil, if_true,
              Outcome.returned.injEq] at h
            subst h
            exact Or.inl ⟨_, rfl, rfl, rfl, by simp⟩
          · cases hb : p.records with
            | nil =>
              rw [Get, GetAux_miss_nil w fuel 1 p 0 0 hostport host port r hb hs hr he hne] at h
              simp at h
            | alloc b =>
              obtain ⟨ip, p1, _, hst, _, hres⟩ :=
                GetAux_miss w fuel p 0 0 hostport host port r b hb hs hk hr he hne
              rw [Get, hres 0, Outcome.returned.injEq] at h
              subst h
              exact Or.inr (Or.inr ⟨host, port, _, rfl, rfl, rfl, rfl, hst, rfl⟩)

/-- The recursion budget of `Get` is never what keeps it from returning: `Get` is pending
only when `ResolveName` is. -/
theorem Get_pending (w : World) (fuel : Nat) (p : Pool) (hostport : String)
    (h : Get w fuel p hostport = .pending) :
    ∃ host port, SplitHostPort hostport = .ok host port ∧ mapGet p.records hostport = none ∧
      ResolveName p (w.Exchange 0) w.RcodeToString host p.NameServer fuel = none := by
  cases hs : SplitHostPort hostport with
  | error why =>
    rw [Get, GetAux_succ] at h
    simp [hs] at h
  | ok host port =>
    cases hk : mapGet p.records hostport with
    | some value =>
      rw [Get, GetAux_succ] at h
      simp only [hs, hk] at h
      repeat' split at h
      all_goals simp at h
    | none =>
      cases hr : ResolveName p (w.Exchange 0) w.RcodeToString host p.NameServer fuel with
      | none => exact ⟨host, port, rfl, rfl, hr⟩
      | some r =>
        exfalso
        cases he : r.err with
        | some e =>
          rw [Get, GetAux_succ] at h
          simp [hs, hk, hr, he] at h
        | none =>
          by_cases hne : r.addrs = []
          · rw [Get, GetAux_succ] at h
            simp [hs, hk, hr, he, hne] at h
          · cases hb : p.records with
            | nil =>
              rw [Get, GetAux_miss_nil w fuel 1 p 0 0 hostport host port r hb hs hr he hne] at h
              simp at h
            | alloc b =>
              obtain ⟨ip, p1, _, _, _, hres⟩ :=
                GetAux_miss w fuel p 0 0 hostport host port r b hb hs hk hr he hne
              rw [Get, hres 0] at h
              simp at h

/-- After a `Get` that returned without error, the key splits and is cached with a
non-empty entry. -/
theorem Get_success_cached (w : World) (fuel : Nat) (p : Pool) (hostport : String) (g : Got)
    (h : Get w fuel p hostport = .returned g) (he : g.err = none) :
    ∃ host port value, SplitHostPort hostport = .ok host port ∧
      mapGet g.pool.records hostport = some value ∧ value ≠ [] := by
  rcases Get_cases w fuel p hostport g h with
    ⟨e, hge, _⟩ | ⟨host, port, value, a, hs, hk, ha, _, _, hp, _⟩ |
    ⟨host, port, a, hs, hk, _, _, hp, _⟩
  · rw [he] at hge
    simp at hge
  · refine ⟨host, port, value, hs, by rw [hp]; exact hk, ?_⟩
    intro hnil
    rw [hnil] at ha
    simp at ha
  · obtain ⟨_, _, hget, _⟩ := store_some p g.pool hostport a hp
    exact ⟨host, port, _, hs, hget, by simp⟩

/-- The second lookup: after a `Get` that returned without error, from any pool, every
further `Get` of the same key returns an address of the cached entry without invoking
`ResolveName`, and leaves the pool as it is. -/
theorem Get_twice (w1 w2 : World) (fuel1 fuel2 : Nat) (p : Pool) (hostport : String) (g : Got)
    (h : Get w1 fuel1 p hostport = .returned g) (he : g.err = none) :
    ∃ a d, Get w2 fuel2 g.pool hostport =
      .returned { addr := some a, err := none, pool := g.pool, resolves := 0, draws := d } := by
  obtain ⟨host, port, value, hs, hk, hne⟩ := Get_success_cached w1 fuel1 p hostport g h he
  obtain ⟨a, d, _, hget⟩ := GetAux_hit w2 fuel2 1 g.pool 0 0 hostport host port value hs hk hne
  exact ⟨a, d, hget⟩

/-- On a pool made by a struct literal, whose map is nil, the first successful resolution
ends in the panic of the map write. -/
theorem Get_literal_pool :
    Get twoStepWorld 5 literalPool "example.com:80" = .crashed := by
  decide

/-! ## Get: sequential use -/

/-- A successful write under an absent key that splits keeps every entry at one
address. -/
theorem SingleAddress_store (p p1 : Pool) (hostport host port : String) (a : TCPAddr)
    (hs : SplitHostPort hostport = .ok host port)
    (hk : mapGet p.records hostport = none) (hst : store p hostport a = some p1)
    (hp : SingleAddress p.records) :
    SingleAddress p1.records := by
  obtain ⟨_, _, hget, hother⟩ := store_some p p1 hostport a hst
  intro k v hv
  by_cases hkk : k = hostport
  · subst hkk
    rw [hget, hk] at hv
    simp only [Option.getD_none, List.nil_append, Option.some.injEq] at hv
    exact ⟨⟨a, hv.symm⟩, host, port, hs⟩
  · rw [hother k hkk] at hv
    exact hp k v hv

/-- Every reachable pool keeps every entry at one address. -/
theorem Reachable_SingleAddress (p : Pool) (h : Reachable p) : SingleAddress p.records := by
  induction h with
  | new =>
    intro k v hv
    simp [New, mapGet, bindGet] at hv
  | configure p q _ hq ih =>
    rw [hq]
    exact ih
  | get w fuel p hostport g _ hget ih =>
    rcases Get_cases w fuel p hostport g hget with
      ⟨_, _, _, hp, _⟩ | ⟨_, _, _, _, _, _, _, _, _, hp, _⟩ |
      ⟨host, port, a, hs, hk, _, _, hp, _⟩
    · rw [hp]
      exact ih
    · rw [hp]
      exact ih
    · exact SingleAddress_store p g.pool hostport host port a hs hk hp ih

/-- The map of every reachable pool is allocated. -/
theorem Reachable_alloc (p : Pool) (h : Reachable p) : ∃ b, p.records = .alloc b := by
  induction h with
  | new => exact ⟨[], rfl⟩
  | configure p q _ hq ih =>
    rw [hq]
    exact ih
  | get w fuel p hostport g _ hget ih =>
    rcases Get_cases w fuel p hostport g hget with
      ⟨_, _, _, hp, _⟩ | ⟨_, _, _, _, _, _, _, _, _, hp, _⟩ |
      ⟨host, port, a, hs, hk, _, _, hp, _⟩
    · rw [hp]
      exact ih
    · rw [hp]
      exact ih
    · exact (store_some p g.pool hostport a hp).2.1

/-- From a reachable pool `Get` never dies of a panic. -/
theorem Get_not_crashed (w : World) (fuel : Nat) (p : Pool) (hostport : String)
    (hp : Reachable p) : Get w fuel p hostport ≠ .crashed := by
  have hinv := Reachable_SingleAddress p hp
  obtain ⟨b, hb⟩ := Reachable_alloc p hp
  intro h
  cases hs : SplitHostPort hostport with
  | error why => simp [Get, GetAux_succ, hs] at h
  | ok host port =>
    cases hk : mapGet p.records hostport with
    | some value =>
      obtain ⟨⟨a, ha⟩, _⟩ := hinv hostport value hk
      subst ha
      rw [Get, GetAux_hit_one w fuel 1 p 0 0 hostport host port a hs hk] at h
      simp at h
    | none =>
      cases hr : ResolveName p (w.Exchange 0) w.RcodeToString host p.NameServer fuel with
      | none => simp [Get, GetAux_succ, hs, hk, hr] at h
      | some r =>
        cases he : r.err with
        | some e => simp [Get, GetAux_succ, hs, hk, hr, he] at h
        | none =>
          by_cases hne : r.addrs = []
          · simp [Get, GetAux_succ, hs, hk, hr, he, hne] at h
          · obtain ⟨ip, p1, _, _, _, hres⟩ :=
              GetAux_miss w fuel p 0 0 hostport host port r b hb hs hk hr he hne
            rw [Get, hres 0] at h
            simp at h

/-! ## Get: the claims about the cache -/

/-- C1: in every pool state reachable from `New()` in which `hostport` is a key of the
cache (in particular after one successful `Get hostport`), `Get hostport` succeeds,
returns an address taken from the cached entry of that key, invokes `ResolveName` zero
times and leaves the pool, the cache with it, as it was. -/
theorem Get_cached (w : World) (fuel : Nat) (p : Pool) (hostport : String)
    (value : List TCPAddr) (hp : Reachable p)
    (hk : mapGet p.records hostport = some value) :
    ∃ a, a ∈ value ∧ Get w fuel p hostport =
      .returned { addr := some a, err := none, pool := p, resolves := 0, draws := 0 } := by
  obtain ⟨⟨a, ha⟩, host, port, hs⟩ := Reachable_SingleAddress p hp hostport value hk
  subst ha
  exact ⟨a, by simp, GetAux_hit_one w fuel 1 p 0 0 hostport host port a hs hk⟩

/-- C1, witness: the pool after one successful `Get` of `example.com:80` from `New()`,
asked again through another network. -/
theorem Get_cached_witness :
    Reachable onePool ∧
    mapGet onePool.records "example.com:80" = some [{ IP := [9], Port := 80 }] ∧
    ∃ a, a ∈ [({ IP := [9], Port := 80 } : TCPAddr)] ∧
      Get emptyWorld 0 onePool "example.com:80" =
      .returned { addr := some a, err := none, pool := onePool, resolves := 0, draws := 0 } :=
  have hr : Reachable onePool :=
    Reachable.get twoStepWorld 5 New "example.com:80"
      { addr := some { IP := [9], Port := 80 }, err := none, pool := onePool,
        resolves := 1, draws := 1 } Reachable.new (by decide)
  ⟨hr, by decide, Get_cached emptyWorld 0 onePool "example.com:80" _ hr (by decide)⟩

/-- C2 (as amended): for every input string that `net.SplitHostPort` rejects, `Get` fails
at once with that address error: `ResolveName` is invoked zero times and the pool is left
as it was. -/
theorem Get_malformed (w : World) (fuel : Nat) (p : Pool) (hostport : String) (why : AddrWhy)
    (hs : SplitHostPort hostport = .error why) :
    Get w fuel p hostport =
      .returned { addr := none, err := some (.addr why hostport), pool := p,
                  resolves := 0, draws := 0 } := by
  simp only [Get, GetAux_succ, hs]

/-- C2, witness: a string lacking a port. -/
theorem Get_malformed_witness :
    SplitHostPort "example.com" = .error .missingPort ∧
    Get twoStepWorld 5 New "example.com" =
      .returned { addr := none, err := some (.addr .missingPort "example.com"), pool := New,
                  resolves := 0, draws := 0 } :=
  ⟨by decide, Get_malformed twoStepWorld 5 New "example.com" .missingPort (by decide)⟩

/-- C2, as stated, fails: a string with an empty host (`:80`) and a string with a
non-numeric port (`example.com:http`) are both resolved and cached, the latter with
port 0. -/
theorem Get_malformed_counterexample :
    Get twoStepWorld 5 New ":80" =
      .returned { addr := some { IP := [9], Port := 80 }, err := none,
                  pool := { New with records := .alloc [(":80", [{ IP := [9], Port := 80 }])] },
                  resolves := 1, draws := 1 } ∧
    Get twoStepWorld 5 New "example.com:http" =
      .returned { addr := some { IP := [9], Port := 0 }, err := none,
                  pool := { New with
                    records := .alloc [("example.com:http", [{ IP := [9], Port := 0 }])] },
                  resolves := 1, draws := 1 } := by
  decide

/-- C3: in every pool state reachable from `New()`, for every key that splits into host and
port and is absent from the cache, and every resolver result without error and with a
non-empty address list, `Get` returns without error an address whose IP is one of the
resolved ones and whose port is the value `strconv.Atoi` reads from the port part, which
for a port written in decimal digits and fitting `int64` is the number written; afterwards
the pool is the old one with the key mapped to the entry made of exactly that address. -/
theorem Get_miss_resolved (w : World) (fuel : Nat) (p : Pool) (hostport host port : String)
    (r : Resolved) (hp : Reachable p)
    (hs : SplitHostPort hostport = .ok host port)
    (hk : mapGet p.records hostport = none)
    (hr : ResolveName p (w.Exchange 0) w.RcodeToString host p.NameServer fuel = some r)
    (he : r.err = none) (hne : r.addrs ≠ []) :
    ∃ (a : TCPAddr) (p1 : Pool), a.IP ∈ r.addrs ∧ a.Port = Atoi port ∧
      (∀ n : Nat, decimalValue port = some n → n < 2 ^ 63 → a.Port = (n : Int)) ∧
      Get w fuel p hostport =
        .returned { addr := some a, err := none, pool := p1, resolves := 1, draws := 1 } ∧
      store p hostport a = some p1 ∧
      mapGet p1.records hostport = some [a] ∧
      (∀ k, k ≠ hostport → mapGet p1.records k = mapGet p.records k) := by
  obtain ⟨b, hb⟩ := Reachable_alloc p hp
  obtain ⟨ip, p1, hip, hst, hget, hres⟩ :=
    GetAux_miss w fuel p 0 0 hostport host port r b hb hs hk hr he hne
  refine ⟨{ IP := ip, Port := Atoi port }, p1, hip, rfl, ?_, hres 0, hst, hget,
    (store_some p p1 hostport _ hst).2.2.2⟩
  intro n hn hlt
  exact Atoi_decimal port n hn hlt

/-- C3, witness: `example.com:80` from `New()` against a nameserver that needs two
exchanges; the address cached is `[9]:80`. -/
theorem Get_miss_resolved_witness :
    Reachable New ∧
    SplitHostPort "example.com:80" = .ok "example.com" "80" ∧
    mapGet New.records "example.com:80" = none ∧
    ResolveName New (twoStepWorld.Exchange 0) twoStepWorld.RcodeToString "example.com"
      New.NameServer 5 =
      some { addrs := [[1, 2, 3, 4], [9], [4, 4, 4, 4]], dur := 12, err := none,
             exchanges := 2, sleeps := [] } ∧
    decimalValue "80" = some 80 ∧
    Get twoStepWorld 5 New "example.com:80" =
      .returned { addr := some { IP := [9], Port := 80 }, err := none, pool := onePool,
                  resolves := 1, draws := 1 } ∧
    ∃ (a : TCPAddr) (p1 : Pool), a.IP ∈ [[1, 2, 3, 4], [9], [4, 4, 4, 4]] ∧
      a.Port = Atoi "80" ∧
      (∀ n : Nat, decimalValue "80" = some n → n < 2 ^ 63 → a.Port = (n : Int)) ∧
      Get twoStepWorld 5 New "example.com:80" =
        .returned { addr := some a, err := none, pool := p1, resolves := 1, draws := 1 } ∧
      store New "example.com:80" a = some p1 ∧
      mapGet p1.records "example.com:80" = some [a] ∧
      (∀ k, k ≠ "example.com:80" → mapGet p1.records k = mapGet New.records k) :=
  ⟨Reachable.new, by decide, by decide, by decide, by decide, by decide,
   Get_miss_resolved twoStepWorld 5 New "example.com:80" "example.com" "80"
     { addrs := [[1, 2, 3, 4], [9], [4, 4, 4, 4]], dur := 12, err := none,
       exchanges := 2, sleeps := [] }
     Reachable.new (by decide) (by decide) (by decide) rfl (by decide)⟩

/-- C4: for every key that splits into host and port and is absent from the cache, when
the resolver returns no error and zero addresses, `Get` fails with `ErrEmptyIPS` and the
pool is left as it was, the key still absent. -/
theorem Get_empty_result (w : World) (fuel : Nat) (p : Pool) (hostport host port : String)
    (r : Resolved)
    (hs : SplitHostPort hostport = .ok host port)
    (hk : mapGet p.records hostport = none)
    (hr : ResolveName p (w.Exchange 0) w.RcodeToString host p.NameServer fuel = some r)
    (he : r.err = none) (h0 : r.addrs = []) :
    ∃ g : Got, Get w fuel p hostport = .returned g ∧ g.addr = none ∧
      g.err = some ErrEmptyIPS ∧ g.pool = p ∧ mapGet g.pool.records hostport = none ∧
      g.resolves = 1 := by
  refine ⟨{ addr := none, err := some ErrEmptyIPS, pool := p, resolves := 1, draws := 0 },
    ?_, rfl, rfl, rfl, hk, rfl⟩
  simp only [Get, GetAux_succ, hs, hk, hr, he, h0, List.length_nil, if_true]

/-- C4, witness: a nameserver answering successfully with no address record. -/
theorem Get_empty_result_witness :
    SplitHostPort "example.com:80" = .ok "example.com" "80" ∧
    mapGet New.records "example.com:80" = none ∧
    ResolveName New (emptyWorld.Exchange 0) emptyWorld.RcodeToString "example.com"
      New.NameServer 1 =
      some { addrs := [], dur := 3, err := none, exchanges := 1, sleeps := [] } ∧
    ∃ g : Got, Get emptyWorld 1 New "example.com:80" = .returned g ∧ g.addr = none ∧
      g.err = some ErrEmptyIPS ∧ g.pool = New ∧ mapGet g.pool.records "example.com:80" = none ∧
      g.resolves = 1 :=
  ⟨by decide, by decide, by decide,
   Get_empty_result emptyWorld 1 New "example.com:80" "example.com" "80"
     { addrs := [], dur := 3, err := none, exchanges := 1, sleeps := [] }
     (by decide) (by decide) (by decide) rfl rfl⟩

/-- C10: in every pool state reachable from `New()` by sequential `Get` calls, every cache
entry holds exactly one address; `Get` on a cached key then returns that address on every
call, whatever the `Randomize` flag, the random source and the network; and a returning
`Get` has invoked `ResolveName` at most once. -/
theorem Reachable_one_address (p : Pool) (h : Reachable p) :
    (∀ k v, mapGet p.records k = some v → v.length = 1) ∧
    (∀ k v, mapGet p.records k = some v → ∃ a, v = [a] ∧
      ∀ (w : World) (fuel : Nat) (b : Bool),
        Get w fuel { p with Randomize := b } k =
          .returned { addr := some a, err := none, pool := { p with Randomize := b },
                      resolves := 0, draws := 0 }) ∧
    (∀ (w : World) (fuel : Nat) (k : String) (g : Got),
      Get w fuel p k = .returned g → g.resolves ≤ 1) := by
  have hinv := Reachable_SingleAddress p h
  refine ⟨?_, ?_, ?_⟩
  · intro k v hv
    obtain ⟨⟨a, ha⟩, _⟩ := hinv k v hv
    simp [ha]
  · intro k v hv
    obtain ⟨⟨a, ha⟩, host, port, hs⟩ := hinv k v hv
    refine ⟨a, ha, ?_⟩
    intro w fuel b
    subst ha
    simp [Get, GetAux_succ, hs, hv]
  · intro w fuel k g hg
    rcases Get_cases w fuel p k g hg with
      ⟨_, _, _, _, hr⟩ | ⟨_, _, _, _, _, _, _, _, _, _, hr⟩ | ⟨_, _, _, _, _, _, _, _, hr⟩
    · exact hr
    · omega
    · omega

/-- C10, witness: the pool after one successful `Get` from `New()`. -/
theorem Reachable_one_address_witness :
    Reachable onePool ∧
    (∀ k v, mapGet onePool.records k = some v → v.length = 1) ∧
    (∀ k v, mapGet onePool.records k = some v → ∃ a, v = [a] ∧
      ∀ (w : World) (fuel : Nat) (b : Bool),
        Get w fuel { onePool with Randomize := b } k =
          .returned { addr := some a, err := none, pool := { onePool with Randomize := b },
                      resolves := 0, draws := 0 }) ∧
    (∀ (w : World) (fuel : Nat) (k : String) (g : Got),
      Get w fuel onePool k = .returned g → g.resolves ≤ 1) :=
  have hr : Reachable onePool :=
    Reachable.get twoStepWorld 5 New "example.com:80"
      { addr := some { IP := [9], Port := 80 }, err := none, pool := onePool,
        resolves := 1, draws := 1 } Reachable.new (by decide)
  ⟨hr, Reachable_one_address onePool hr⟩

/-! ## ResolveName: one attempt -/

/-- One unfolding of `Redo`. -/
theorem Redo_succ (p : Pool) (net : Network) (tbl : Int → String) (name nameserver : String)
    (fuel : Nat) (s : RedoState) :
    Redo p net tbl name nameserver (fuel + 1) s =
    match net name nameserver s.exchanges with
    | .failed rtt err =>
      if err.isNetError && err.temporary &&
          decide (wrap64 (wrap64 (s.dur + rtt) + s.retryWait) < p.Timeout) then
        Redo p net tbl name nameserver fuel
          { addrs := s.addrs
            dur := wrap64 (s.dur + rtt)
            retryWait := wrap64 (s.retryWait * 2)
            exchanges := s.exchanges + 1
            sleeps := s.sleeps ++ [s.retryWait] }
      else
        some { addrs := [], dur := wrap64 (s.dur + rtt), err := some (.exchange err),
               exchanges := s.exchanges + 1, sleeps := s.sleeps }
    | .replied rtt reply =>
      if reply.Rcode ≠ RcodeSuccess then
        some { addrs := [], dur := wrap64 (s.dur + rtt),
               err := some (.rcode (rcodeErrorText name nameserver (tbl reply.Rcode))),
               exchanges := s.exchanges + 1, sleeps := s.sleeps }
      else
        if reply.Truncated then
          Redo p net tbl name nameserver fuel
            { addrs := collect s.addrs reply.Answer
              dur := wrap64 (s.dur + rtt)
              retryWait := s.retryWait
              exchanges := s.exchanges + 1
              sleeps := s.sleeps }
        else
          some { addrs := collect s.addrs reply.Answer, dur := wrap64 (s.dur + rtt),
                 err := none, exchanges := s.exchanges + 1, sleeps := s.sleeps } := by
  rfl

/-- The loop over the answer section appends the address records, in order. -/
theorem collect_eq (addrs : List NetIP) (answer : List RR) :
    collect addrs answer = addrs ++ addressRecords answer := by
  induction answer generalizing addrs with
  | nil => simp [collect, addressRecords]
  | cons a rest ih =>
    cases a <;> simp [collect, ih, addressRecords]

/-- C5: when the first exchange is answered by a success-coded reply marked truncated and
the second by a success-coded reply not marked truncated, `ResolveName` returns without
error, after exactly two exchanges and no sleep, the address records of the first answer
section in server order followed by those of the second. -/
theorem ResolveName_truncated_once (p : Pool) (net : Network) (tbl : Int → String)
    (name nameserver : String) (fuel : Nat) (rtt1 rtt2 : Int) (r1 r2 : Msg)
    (h1 : net name nameserver 0 = .replied rtt1 r1)
    (h2 : net name nameserver 1 = .replied rtt2 r2)
    (c1 : r1.Rcode = RcodeSuccess) (c2 : r2.Rcode = RcodeSuccess)
    (t1 : r1.Truncated = true) (t2 : r2.Truncated = false) :
    ResolveName p net tbl name nameserver (fuel + 2) =
      some { addrs := addressRecords r1.Answer ++ addressRecords r2.Answer
             dur := wrap64 (wrap64 (0 + rtt1) + rtt2)
             err := none
             exchanges := 2
             sleeps := [] } := by
  simp [ResolveName, redoInit, Redo_succ, h1, h2, c1, c2, t1, t2, collect_eq]

/-- C5, witness: the two-step nameserver. -/
theorem ResolveName_truncated_once_witness :
    twoStepNet "example.com" "8.8.8.8:53" 0 =
      .replied 5 { Rcode := 0, Truncated := true, Answer := [.A [1, 2, 3, 4], .other 5] } ∧
    twoStepNet "example.com" "8.8.8.8:53" 1 =
      .replied 7 { Rcode := 0, Truncated := false, Answer := [.AAAA [9], .A [4, 4, 4, 4]] } ∧
    ResolveName New twoStepNet noText "example.com" "8.8.8.8:53" (0 + 2) =
      some { addrs := addressRecords [.A [1, 2, 3, 4], .other 5] ++
                      addressRecords [.AAAA [9], .A [4, 4, 4, 4]]
             dur := wrap64 (wrap64 (0 + 5) + 7)
             err := none
             exchanges := 2
             sleeps := [] } :=
  ⟨by decide, by decide,
   ResolveName_truncated_once New twoStepNet noText "example.com" "8.8.8.8:53" 0 5 7
     { Rcode := 0, Truncated := true, Answer := [.A [1, 2, 3, 4], .other 5] }
     { Rcode := 0, Truncated := false, Answer := [.AAAA [9], .A [4, 4, 4, 4]] }
     (by decide) (by decide) (by decide) (by decide) rfl rfl⟩

/-- C8: at every attempt of `ResolveName` (every state at `Redo`, the first included), an
exchange that ends in a transport error which is not transient, or in a reply whose
response code is not success, makes `ResolveName` return right after it: no sleep and no
further exchange, no addresses, and as error the transport error itself, respectively
the text naming the query name, the nameserver and the response code text. -/
theorem Redo_fatal_no_retry (p : Pool) (net : Network) (tbl : Int → String)
    (name nameserver : String) (fuel : Nat) (s : RedoState) (rtt : Int) (e : Err)
    (h : fatalOutcome tbl name nameserver (net name nameserver s.exchanges) = some (rtt, e)) :
    Redo p net tbl name nameserver (fuel + 1) s =
      some { addrs := []
             dur := wrap64 (s.dur + rtt)
             err := some e
             exchanges := s.exchanges + 1
             sleeps := s.sleeps } := by
  rw [Redo_succ]
  cases hx : net name nameserver s.exchanges with
  | failed rtt1 err =>
    rw [hx] at h
    by_cases ht : err.transient = true
    · simp [fatalOutcome, ht] at h
    · simp only [fatalOutcome, ht, if_false, Option.some.injEq, Prod.mk.injEq,
        Bool.false_eq_true] at h
      obtain ⟨h1, h2⟩ := h
      subst h1 h2
      simp only [NetError.transient] at ht
      simp [ht]
  | replied rtt1 reply =>
    rw [hx] at h
    by_cases hc : reply.Rcode = RcodeSuccess
    · simp [fatalOutcome, hc] at h
    · simp only [fatalOutcome, hc, if_false, Option.some.injEq, Prod.mk.injEq] at h
      obtain ⟨h1, h2⟩ := h
      subst h1 h2
      simp [hc]

/-- C8, witness: a refused connection at the first attempt, and a reply with response
code 3 at the first attempt, whose error text names the query name, the nameserver and
the text of the code. -/
theorem Redo_fatal_no_retry_witness :
    (fatalOutcome noText "example.com" "8.8.8.8:53"
        (refusedNet "example.com" "8.8.8.8:53" (redoInit New).exchanges) =
      some (1, .exchange refusedError) ∧
    Redo New refusedNet noText "example.com" "8.8.8.8:53" (0 + 1) (redoInit New) =
      some { addrs := []
             dur := wrap64 ((redoInit New).dur + 1)
             err := some (.exchange refusedError)
             exchanges := (redoInit New).exchanges + 1
             sleeps := (redoInit New).sleeps }) ∧
    (fatalOutcome nameErrorText "example.com" "8.8.8.8:53"
        (nameErrorNet "example.com" "8.8.8.8:53" (redoInit New).exchanges) =
      some (2, .rcode "ResolveName(example.com, 8.8.8.8:53): NXDOMAIN") ∧
    Redo New nameErrorNet nameErrorText "example.com" "8.8.8.8:53" (0 + 1) (redoInit New) =
      some { addrs := []
             dur := wrap64 ((redoInit New).dur + 2)
             err := some (.rcode "ResolveName(example.com, 8.8.8.8:53): NXDOMAIN")
             exchanges := (redoInit New).exchanges + 1
             sleeps := (redoInit New).sleeps }) :=
  ⟨⟨by decide,
    Redo_fatal_no_retry New refusedNet noText "example.com" "8.8.8.8:53" 0 (redoInit New) 1
      (.exchange refusedError) (by decide)⟩,
   ⟨by decide,
    Redo_fatal_no_retry New nameErrorNet nameErrorText "example.com" "8.8.8.8:53" 0
      (redoInit New) 2 (.rcode "ResolveName(example.com, 8.8.8.8:53): NXDOMAIN")
      (by decide)⟩⟩

/-! ## ResolveName: a network that always reports a transient error -/

/-- One attempt against a transient error: retry when the test holds, give up otherwise. -/
theorem Redo_transient_step (p : Pool) (net : Network) (tbl : Int → String)
    (name nameserver : String) (fuel k : Nat) (rtt : Int) (e : NetError)
    (hx : net name nameserver k = .failed rtt e) (ht : e.transient = true) :
    Redo p net tbl name nameserver (fuel + 1) (transientState p net name nameserver k) =
      if retries p net name nameserver k then
        Redo p net tbl name nameserver fuel (transientState p net name nameserver (k + 1))
      else some (gaveUp p net name nameserver k e) := by
  have hd : wrap64 (elapsed net name nameserver k + rtt) = elapsed net name nameserver (k + 1) := by
    simp [elapsed, hx, rttOf]
  have hsl : List.map (backoff p.RetryWait) (List.range k) ++ [backoff p.RetryWait k] =
      List.map (backoff p.RetryWait) (List.range (k + 1)) := by
    simp [List.range_succ]
  simp only [NetError.transient] at ht
  rw [Redo_succ]
  simp only [transientState, hx, ht, Bool.true_and, hd, hsl]
  by_cases hr : retries p net name nameserver k
  · have hr2 := hr
    simp only [retries] at hr2
    simp [hr, hr2, backoff]
  · have hr2 := hr
    simp only [retries] at hr2
    simp [hr, hr2, gaveUp]

/-- When the test holds at every attempt from `k` to `n` (excluded) and fails at `n`, the
loop started before attempt `k` returns, with enough fuel, what `gaveUp` says. -/
theorem Redo_transient_run (p : Pool) (net : Network) (tbl : Int → String)
    (name nameserver : String) (hat : AlwaysTransient net name nameserver)
    (n : Nat) (e : NetError) (rtt : Int) (hn : net name nameserver n = .failed rtt e)
    (hstop : ¬ retries p net name nameserver n) :
    ∀ (m k fuel : Nat), k + m = n → (∀ j, k ≤ j → j < n → retries p net name nameserver j) →
      m < fuel →
      Redo p net tbl name nameserver fuel (transientState p net name nameserver k) =
        some (gaveUp p net name nameserver n e) := by
  intro m
  induction m with
  | zero =>
    intro k fuel hk _ hf
    obtain ⟨f, rfl⟩ : ∃ f, fuel = f + 1 := ⟨fuel - 1, by omega⟩
    have hkn : k = n := by omega
    subst hkn
    obtain ⟨rtt1, e1, hx, ht⟩ := hat k
    rw [hn] at hx
    cases hx
    rw [Redo_transient_step p net tbl name nameserver f k rtt e hn ht, if_neg hstop]
  | succ m ih =>
    intro k fuel hk hall hf
    obtain ⟨f, rfl⟩ : ∃ f, fuel = f + 1 := ⟨fuel - 1, by omega⟩
    obtain ⟨rtt1, e1, hx, ht⟩ := hat k
    rw [Redo_transient_step p net tbl name nameserver f k rtt1 e1 hx ht,
      if_pos (hall k (le_refl k) (by omega))]
    exact ih (k + 1) f (by omega) (fun j h1 h2 => hall j (by omega) h2) (by omega)

/-- When the test holds at every attempt from `k` on, the loop never returns. -/
theorem Redo_transient_forever (p : Pool) (net : Network) (tbl : Int → String)
    (name nameserver : String) (hat : AlwaysTransient net name nameserver) :
    ∀ (fuel k : Nat), (∀ j, k ≤ j → retries p net name nameserver j) →
      Redo p net tbl name nameserver fuel (transientState p net name nameserver k) = none := by
  intro fuel
  induction fuel with
  | zero => intro k _; rfl
  | succ f ih =>
    intro k hall
    obtain ⟨rtt1, e1, hx, ht⟩ := hat k
    rw [Redo_transient_step p net tbl name nameserver f k rtt1 e1 hx ht,
      if_pos (hall k (le_refl k))]
    exact ih (k + 1) (fun j h => hall j (by omega))

/-- Whatever the loop returns against such a network is a `gaveUp` at the first attempt
at which the test fails. -/
theorem Redo_transient_result (p : Pool) (net : Network) (tbl : Int → String)
    (name nameserver : String) (hat : AlwaysTransient net name nameserver) :
    ∀ (fuel k : Nat) (r : Resolved),
      Redo p net tbl name nameserver fuel (transientState p net name nameserver k) = some r →
      ∃ n rtt e, k ≤ n ∧ net name nameserver n = .failed rtt e ∧
        (∀ j, k ≤ j → j < n → retries p net name nameserver j) ∧
        ¬ retries p net name nameserver n ∧ r = gaveUp p net name nameserver n e := by
  intro fuel
  induction fuel with
  | zero => intro k r h; simp [Redo] at h
  | succ f ih =>
    intro k r h
    obtain ⟨rtt1, e1, hx, ht⟩ := hat k
    rw [Redo_transient_step p net tbl name nameserver f k rtt1 e1 hx ht] at h
    by_cases hr : retries p net name nameserver k
    · rw [if_pos hr] at h
      obtain ⟨n, rtt, e, hkn, hn, hall, hstop, hres⟩ := ih (k + 1) r h
      refine ⟨n, rtt, e, by omega, hn, ?_, hstop, hres⟩
      intro j h1 h2
      by_cases hjk : j = k
      · subst hjk; exact hr
      · exact hall j (by omega) h2
    · rw [if_neg hr] at h
      refine ⟨k, rtt1, e1, le_refl k, hx, ?_, hr, ?_⟩
      · intro j h1 h2; omega
      · simpa using h.symm

theorem transientState_zero (p : Pool) (net : Network) (name nameserver : String) :
    transientState p net name nameserver 0 = redoInit p := by
  simp [transientState, redoInit, elapsed, backoff]

/-! ## ResolveName: when the `int64` arithmetic does not wrap -/

theorem wrap64_eq (x : Int) (h1 : -(2 ^ 63) ≤ x) (h2 : x < 2 ^ 63) : wrap64 x = x := by
  unfold wrap64
  omega

/-- With a budget, a positive first wait and round-trip times of at most `2 ^ 61`
nanoseconds, as long as every attempt so far was retried neither `dur` nor `retryWait`
has wrapped. -/
theorem transient_exact (p : Pool) (net : Network) (name nameserver : String)
    (hT : p.Timeout ≤ 2 ^ 61) (hW : 0 < p.RetryWait) (hW2 : p.RetryWait ≤ 2 ^ 61)
    (hrtt : ∀ k, 0 ≤ rttOf (net name nameserver k) ∧ rttOf (net name nameserver k) ≤ 2 ^ 61) :
    ∀ m, (∀ j, j < m → retries p net name nameserver j) →
      elapsed net name nameserver m = totalRtt net name nameserver m ∧
      backoff p.RetryWait m = p.RetryWait * 2 ^ m ∧
      0 ≤ totalRtt net name nameserver m ∧ totalRtt net name nameserver m < 2 ^ 61 ∧
      0 < p.RetryWait * 2 ^ m ∧ p.RetryWait * 2 ^ m < 2 ^ 62 := by
  intro m
  induction m with
  | zero =>
    intro _
    simp only [elapsed, totalRtt, backoff, pow_zero, mul_one]
    refine ⟨trivial, trivial, le_refl _, by norm_num, hW, by omega⟩
  | succ m ih =>
    intro hall
    obtain ⟨hE, hB, hD0, hD1, hX0, hX1⟩ := ih (fun j hj => hall j (by omega))
    have hr := hall m (by omega)
    obtain ⟨hr0, hr1⟩ := hrtt m
    have hpow : p.RetryWait * 2 ^ (m + 1) = p.RetryWait * 2 ^ m * 2 := by ring
    have hE1 : elapsed net name nameserver (m + 1) = totalRtt net name nameserver (m + 1) := by
      simp only [elapsed, totalRtt, hE]
      apply wrap64_eq <;> omega
    simp only [retries, hE1, hB] at hr
    simp only [totalRtt] at hr hE1 ⊢
    rw [wrap64_eq _ (by omega) (by omega)] at hr
    refine ⟨hE1, ?_, by omega, by omega, by omega, by omega⟩
    simp only [backoff, hB]
    rw [wrap64_eq _ (by omega) (by omega)]
    ring

/-- Under the same bounds the test of attempt `m` is the one of the mathematical
integers. -/
theorem retries_exact (p : Pool) (net : Network) (name nameserver : String)
    (hT : p.Timeout ≤ 2 ^ 61) (hW : 0 < p.RetryWait) (hW2 : p.RetryWait ≤ 2 ^ 61)
    (hrtt : ∀ k, 0 ≤ rttOf (net name nameserver k) ∧ rttOf (net name nameserver k) ≤ 2 ^ 61)
    (m : Nat) (hall : ∀ j, j < m → retries p net name nameserver j) :
    elapsed net name nameserver (m + 1) = totalRtt net name nameserver (m + 1) ∧
    (retries p net name nameserver m ↔
      totalRtt net name nameserver (m + 1) + p.RetryWait * 2 ^ m < p.Timeout) := by
  obtain ⟨hE, hB, hD0, hD1, hX0, hX1⟩ := transient_exact p net name nameserver hT hW hW2 hrtt m hall
  obtain ⟨hr0, hr1⟩ := hrtt m
  have hE1 : elapsed net name nameserver (m + 1) = totalRtt net name nameserver (m + 1) := by
    simp only [elapsed, totalRtt, hE]
    apply wrap64_eq <;> omega
  refine ⟨hE1, ?_⟩
  simp only [retries, hE1, hB]
  simp only [totalRtt] at hE1 ⊢
  rw [wrap64_eq _ (by omega) (by omega)]

/-- Under the same bounds the test fails at some attempt. -/
theorem retries_stop (p : Pool) (net : Network) (name nameserver : String)
    (hT : p.Timeout ≤ 2 ^ 61) (hW : 0 < p.RetryWait) (hW2 : p.RetryWait ≤ 2 ^ 61)
    (hrtt : ∀ k, 0 ≤ rttOf (net name nameserver k) ∧ rttOf (net name nameserver k) ≤ 2 ^ 61) :
    ∃ n, ¬ retries p net name nameserver n := by
  by_contra hcon
  push_neg at hcon
  obtain ⟨_, _, _, _, _, hX1⟩ :=
    transient_exact p net name nameserver hT hW hW2 hrtt 62 (fun j _ => hcon j)
  norm_num at hX1
  omega

/-! ## ResolveName: the claims about giving up -/

/-- C6 (as amended): for every configuration and every network that always reports a
transient transport error, when `ResolveName` gives up, after `n` retries, it returns the
last transport error and no address, the elapsed duration it reports is the `int64` sum of
the round-trip times of its `n + 1` exchanges (no sleep is counted), and that duration plus
the wait reached after `n` doublings of `RetryWait` is at least `Timeout`. -/
theorem ResolveName_gives_up (p : Pool) (net : Network) (tbl : Int → String)
    (name nameserver : String) (fuel : Nat) (r : Resolved)
    (hat : AlwaysTransient net name nameserver)
    (hr : ResolveName p net tbl name nameserver fuel = some r) :
    ∃ n e, r.err = some (.exchange e) ∧ r.addrs = [] ∧ r.exchanges = n + 1 ∧
      r.sleeps.length = n ∧ r.dur = elapsed net name nameserver (n + 1) ∧
      p.Timeout ≤ wrap64 (r.dur + backoff p.RetryWait n) := by
  rw [ResolveName, ← transientState_zero p net name nameserver] at hr
  obtain ⟨n, rtt, e, _, _, _, hstop, hres⟩ :=
    Redo_transient_result p net tbl name nameserver hat fuel 0 r hr
  subst hres
  refine ⟨n, e, rfl, rfl, rfl, by simp [gaveUp], rfl, ?_⟩
  simp only [retries, not_lt] at hstop
  exact hstop

/-- C6, witness: the default configuration against exchanges that fail with a round-trip
time of 0. -/
theorem ResolveName_gives_up_witness :
    ResolveName New timeoutNet noText "example.com" "8.8.8.8:53" 5 =
      some { addrs := [], dur := 0, err := some (.exchange timeoutError), exchanges := 3,
             sleeps := [2 * Second, 4 * Second] } ∧
    ∃ n e, (some (Err.exchange timeoutError) : Option Err) = some (.exchange e) ∧
      ([] : List NetIP) = [] ∧ 3 = n + 1 ∧
      [2 * Second, 4 * Second].length = n ∧
      (0 : Int) = elapsed timeoutNet "example.com" "8.8.8.8:53" (n + 1) ∧
      New.Timeout ≤ wrap64 (0 + backoff New.RetryWait n) :=
  ⟨by decide,
   ResolveName_gives_up New timeoutNet noText "example.com" "8.8.8.8:53" 5
     { addrs := [], dur := 0, err := some (.exchange timeoutError), exchanges := 3,
       sleeps := [2 * Second, 4 * Second] }
     (fun _ => ⟨0, timeoutError, rfl, rfl⟩) (by decide)⟩

/-- C6, as stated, fails: with the default configuration (`Timeout` 5 s, `RetryWait` 2 s)
and exchanges that fail with a round-trip time of 0, `ResolveName` gives up after three
exchanges and sleeps of 2 s and 4 s, and reports an elapsed duration of 0; with exchanges
that fail after 2 s each it gives up after two exchanges and one sleep of 2 s, and reports
4 s.  Both are below the `Timeout` of 5 s. -/
theorem ResolveName_gives_up_counterexample :
    ResolveName New timeoutNet noText "example.com" "8.8.8.8:53" 3 =
      some { addrs := [], dur := 0, err := some (.exchange timeoutError), exchanges := 3,
             sleeps := [2 * Second, 4 * Second] } ∧
    (0 : Int) < New.Timeout ∧
    ResolveName New stepTimeoutNet noText "example.com" "8.8.8.8:53" 2 =
      some { addrs := [], dur := 4 * Second, err := some (.exchange timeoutError),
             exchanges := 2, sleeps := [2 * Second] } ∧
    4 * Second < New.Timeout := by
  decide

/-- C7 (as amended): for every configuration with `0 < RetryWait`, with `RetryWait` and
`Timeout` at most `2 ^ 61` nanoseconds, and every network that always reports a transient
transport error with round-trip times between 0 and `2 ^ 61` nanoseconds, `ResolveName`
makes finitely many attempts, `n + 1`, and then fails with the transport error of the last
of them (exchange number `n`, counting from 0); the wait slept before the `k`-th retry is
`RetryWait * 2 ^ (k - 1)`; and attempt `k` is followed by a retry exactly when the summed
round-trip times plus the current wait are strictly below `Timeout`. -/
theorem ResolveName_backoff (p : Pool) (net : Network) (tbl : Int → String)
    (name nameserver : String)
    (hT : p.Timeout ≤ 2 ^ 61) (hW : 0 < p.RetryWait) (hW2 : p.RetryWait ≤ 2 ^ 61)
    (hnet : ∀ k, ∃ rtt e, net name nameserver k = .failed rtt e ∧ e.transient = true ∧
      0 ≤ rtt ∧ rtt ≤ 2 ^ 61) :
    ∃ n rtt e, net name nameserver n = .failed rtt e ∧
      (∀ fuel, n < fuel → ResolveName p net tbl name nameserver fuel =
        some { addrs := []
               dur := totalRtt net name nameserver (n + 1)
               err := some (.exchange e)
               exchanges := n + 1
               sleeps := (List.range n).map (fun k => p.RetryWait * 2 ^ k) }) ∧
      (∀ k, k < n → totalRtt net name nameserver (k + 1) + p.RetryWait * 2 ^ k < p.Timeout) ∧
      ¬ (totalRtt net name nameserver (n + 1) + p.RetryWait * 2 ^ n < p.Timeout) := by
  have hat : AlwaysTransient net name nameserver := by
    intro k
    obtain ⟨rtt, e, hx, ht, _, _⟩ := hnet k
    exact ⟨rtt, e, hx, ht⟩
  have hrtt : ∀ k, 0 ≤ rttOf (net name nameserver k) ∧ rttOf (net name nameserver k) ≤ 2 ^ 61 := by
    intro k
    obtain ⟨rtt, e, hx, _, h0, h1⟩ := hnet k
    rw [hx]
    exact ⟨h0, h1⟩
  have hex := retries_stop p net name nameserver hT hW hW2 hrtt
  have hstop : ¬ retries p net name nameserver (Nat.find hex) := Nat.find_spec hex
  have hall : ∀ j, j < Nat.find hex → retries p net name nameserver j := by
    intro j hj
    exact not_not.mp (Nat.find_min hex hj)
  generalize Nat.find hex = n at hstop hall
  obtain ⟨rtt, e, hx, _, _, _⟩ := hnet n
  have hexact : ∀ m, m ≤ n →
      elapsed net name nameserver (m + 1) = totalRtt net name nameserver (m + 1) ∧
      (retries p net name nameserver m ↔
        totalRtt net name nameserver (m + 1) + p.RetryWait * 2 ^ m < p.Timeout) := by
    intro m hm
    exact retries_exact p net name nameserver hT hW hW2 hrtt m
      (fun j hj => hall j (by omega))
  have hsl : List.map (backoff p.RetryWait) (List.range n) =
      List.map (fun k => p.RetryWait * 2 ^ k) (List.range n) := by
    apply List.map_congr_left
    intro k hk
    have hkn : k < n := List.mem_range.mp hk
    exact (transient_exact p net name nameserver hT hW hW2 hrtt k
      (fun j hj => hall j (by omega))).2.1
  refine ⟨n, rtt, e, hx, ?_, ?_, ?_⟩
  · intro fuel hf
    rw [ResolveName, ← transientState_zero p net name nameserver,
      Redo_transient_run p net tbl name nameserver hat n e rtt hx hstop n 0 fuel
        (by omega) (fun j _ hj => hall j hj) hf]
    simp only [gaveUp, (hexact n (le_refl n)).1, hsl]
  · intro k hk
    exact (hexact k (by omega)).2.mp (hall k hk)
  · intro hlt
    exact hstop ((hexact n (le_refl n)).2.mpr hlt)

/-- C7, witness: the default configuration against exchanges that fail after one second
each. -/
theorem ResolveName_backoff_witness :
    New.Timeout ≤ 2 ^ 61 ∧ 0 < New.RetryWait ∧ New.RetryWait ≤ 2 ^ 61 ∧
    ∃ n rtt e, slowTimeoutNet "example.com" "8.8.8.8:53" n = .failed rtt e ∧
      (∀ fuel, n < fuel → ResolveName New slowTimeoutNet noText "example.com" "8.8.8.8:53" fuel =
        some { addrs := []
               dur := totalRtt slowTimeoutNet "example.com" "8.8.8.8:53" (n + 1)
               err := some (.exchange e)
               exchanges := n + 1
               sleeps := (List.range n).map (fun k => New.RetryWait * 2 ^ k) }) ∧
      (∀ k, k < n → totalRtt slowTimeoutNet "example.com" "8.8.8.8:53" (k + 1) +
        New.RetryWait * 2 ^ k < New.Timeout) ∧
      ¬ (totalRtt slowTimeoutNet "example.com" "8.8.8.8:53" (n + 1) +
        New.RetryWait * 2 ^ n < New.Timeout) :=
  ⟨by decide, by decide, by decide,
   ResolveName_backoff New slowTimeoutNet noText "example.com" "8.8.8.8:53"
     (by decide) (by decide) (by decide)
     (fun _ => ⟨Second, timeoutError, rfl, rfl, by decide, by decide⟩)⟩

theorem elapsed_timeoutNet (name nameserver : String) (k : Nat) :
    elapsed timeoutNet name nameserver k = 0 := by
  induction k with
  | zero => rfl
  | succ k ih =>
    simp only [elapsed, ih, timeoutNet, rttOf]
    decide

theorem backoff_huge (k : Nat) : backoff (2 ^ 62) (k + 2) = 0 := by
  induction k with
  | zero => decide
  | succ k ih =>
    simp only [backoff] at ih ⊢
    rw [ih]
    decide

/-- C7, as stated, fails: with `RetryWait = 2 ^ 62` and `Timeout = 2 ^ 62 + 1`
nanoseconds and exchanges that fail with a round-trip time of 0, the first doubling of the wait wraps to
`-2 ^ 63`, the second to 0, the test holds at every attempt, and `ResolveName` never
returns. -/
theorem ResolveName_backoff_counterexample :
    0 < hugePool.RetryWait ∧
    backoff hugePool.RetryWait 1 = -(2 ^ 63) ∧
    ¬ ∃ fuel, (ResolveName hugePool timeoutNet noText "example.com" "8.8.8.8:53" fuel).isSome
      = true := by
  refine ⟨by decide, by decide, ?_⟩
  rintro ⟨fuel, h⟩
  have hat : AlwaysTransient timeoutNet "example.com" "8.8.8.8:53" :=
    fun _ => ⟨0, timeoutError, rfl, rfl⟩
  have hall : ∀ j, 0 ≤ j → retries hugePool timeoutNet "example.com" "8.8.8.8:53" j := by
    intro j _
    simp only [retries, elapsed_timeoutNet]
    match j with
    | 0 => decide
    | 1 => decide
    | k + 2 =>
      have hb : backoff hugePool.RetryWait (k + 2) = 0 := backoff_huge k
      rw [hb]
      decide
  have hnone := Redo_transient_forever hugePool timeoutNet noText "example.com" "8.8.8.8:53"
    hat fuel 0 hall
  rw [transientState_zero] at hnone
  rw [ResolveName, hnone] at h
  simp at h

/-! ## ResolveName: the test is strict -/

/-- With `Timeout` 4 s, `RetryWait` 2 s and exchanges that fail with a round-trip time of
0, the second
attempt finds `dur + retryWait` equal to `Timeout` and is not followed by a retry. -/
theorem ResolveName_boundary :
    wrap64 (elapsed timeoutNet "example.com" "8.8.8.8:53" 2 + backoff boundaryPool.RetryWait 1)
      = boundaryPool.Timeout ∧
    ResolveName boundaryPool timeoutNet noText "example.com" "8.8.8.8:53" 2 =
      some { addrs := [], dur := 0, err := some (.exchange timeoutError), exchanges := 2,
             sleeps := [2 * Second] } := by
  decide

end Godns
